import Mathlib

/-!
# Verification of the CINN reduction primitive-expression builder

Shallow embedding of `src/cinn/hlir/pe/reduction.cc` (namespace `cinn::hlir::pe`):
axis normalization (`GetRealAxes`), output-shape derivation (`GetOutputShape`),
the generic reduction builder (`DoReduce`, `Reduce`, `ReduceSum/Prod/Max/Min`)
and the warp-level reduction builder (`WarpReduce`).

Symbolic IR expressions are embedded as an inductive `Expr`; tensors carry a
name, an element type tag, a shape and (for computed tensors) a body function
from index tuples to expressions.  CHECK failures in the C++ are modelled as
`Option.none`.  The process-wide unique-name generator is modelled by explicit
counter passing.
-/

set_option autoImplicit false

namespace CinnPE

/-- Symbolic IR expression.  `intImm` is an integer immediate (`Expr(32)`,
`common::make_one()`), `constOfType` a typed constant (`common::make_const`),
`rvar` a reduction variable with its extent (`ir::Var(extent, name)`),
`access` a tensor read at an index tuple, `tensorRef` a tensor passed as a
call argument, `callExtern` an external-intrinsic call (`lang::CallExtern`),
and `reduce` a fold node built by a `lang::Reduce*` accumulation function.
`undefined` is the default-constructed `Expr()`. -/
inductive Expr where
  | intImm (v : Int)
  | constOfType (ty : String) (v : Int)
  | rvar (extent : Expr) (name : String)
  | add (a b : Expr)
  | mul (a b : Expr)
  | access (tensor : String) (indices : List Expr)
  | tensorRef (tensor : String)
  | callExtern (fn : String) (args : List Expr)
  | reduce (kind : String) (body : Expr) (rvars : List Expr) (init : Expr)
  | undefined

/-- `Expr::defined()`: every expression except the default-constructed one. -/
def Expr.defined : Expr → Bool
  | .undefined => false
  | _ => true

/-- Projection of the `init` operand of a `reduce` node. -/
def Expr.reduceInit : Expr → Expr
  | .reduce _ _ _ i => i
  | _ => .undefined

/-- `Expr::as_int32()`: the value of an integer immediate; the C++ call CHECKs
(and aborts) on any other node, modelled as `none`. -/
def asInt32 : Expr → Option Int
  | .intImm v => some v
  | _ => none

/-- Evaluator for closed arithmetic expressions (immediates, sums, products). -/
def evalInt : Expr → Option Int
  | .intImm v => some v
  | .add a b =>
    match evalInt a, evalInt b with
    | some x, some y => some (x + y)
    | _, _ => none
  | .mul a b =>
    match evalInt a, evalInt b with
    | some x, some y => some (x * y)
    | _, _ => none
  | _ => none

/-- Modelled from the spec: `common::make_one()` (not among the shown sources)
is the constant size-1 expression used for kept reduced dimensions. -/
def makeOne : Expr := Expr.intImm 1

/-- A symbolic tensor: name, element type tag, shape, and — for tensors
declared through `Compute` — the body mapping an output index tuple to the
scalar expression at that position.  Input tensors have no body. -/
structure Tensor where
  name : String
  type : String
  shape : List Expr
  body : Option (List Expr → Expr)

/-- Reading a computed tensor's defining expression at an index tuple. -/
def Tensor.bodyAt (t : Tensor) (indices : List Expr) : Expr :=
  match t.body with
  | some f => f indices
  | none => Expr.access t.name indices

/-- Modelled from the spec: `lang::Compute` (not among the shown sources)
declares a named compute definition over an index domain: the resulting tensor
has exactly the given shape and the given per-index body. -/
def Compute (domain : List Expr) (f : List Expr → Expr) (name : String) : Tensor :=
  { name := name, type := "", shape := domain, body := some f }

/-- Modelled from the spec: the process-wide unique-name generator `UniqName`
(not among the shown sources), embedded as explicit state passing: from a
counter it yields a fresh name and the next counter. -/
def UniqName (base : String) (c : Nat) : String × Nat :=
  (base ++ "_" ++ toString c, c + 1)

/-! ## Axis Normalizer (`GetRealAxes`, reduction.cc lines 46-64) -/

/-- Python-style negative-index adjustment (`if (axis < 0) axis += ndim`). -/
def adjustAxis (ndim a : Int) : Int :=
  if a < 0 then a + ndim else a

/-- One loop iteration of `GetRealAxes`: adjust, then
`CHECK_LE(axis, ndim)` and `CHECK_GE(axis, 0)`; a CHECK failure is `none`. -/
def checkAxis (ndim a : Int) : Option Int :=
  let b := adjustAxis ndim a
  if b ≤ ndim then (if 0 ≤ b then some b else none) else none

/-- The validation loop of `GetRealAxes` over the whole axis list. -/
def checkAxes (ndim : Int) : List Int → Option (List Int)
  | [] => some []
  | a :: rest =>
    match checkAxis ndim a, checkAxes ndim rest with
    | some b, some bs => some (b :: bs)
    | _, _ => none

/-- `GetRealAxes`: empty axis list expands to all dimensions; otherwise each
axis is adjusted and validated, then `std::unique` (which removes only
adjacent duplicates, embedded as `List.destutter (· ≠ ·)`) runs, and only
after it `std::sort`. -/
def getRealAxes (ndim : Int) (axes : List Int) : Option (List Int) :=
  if axes.isEmpty then
    some ((List.range ndim.toNat).map (fun m : Nat => (m : Int)))
  else
    match checkAxes ndim axes with
    | none => none
    | some adjusted =>
      some (List.insertionSort (· ≤ ·) (adjusted.destutter (· ≠ ·)))

/-! ## Output Shape Deriver (`GetOutputShape`, reduction.cc lines 75-99) -/

/-- The `keep_dims` loop of `GetOutputShape`: walk the shape with a running
dimension index `i`; a reduced dimension emits `make_one()`, any other
dimension copies its size expression. -/
def outShapeKeep (real_axes : List Int) : List Expr → Nat → List Expr
  | [], _ => []
  | s :: rest, i =>
    (if ((i : Int)) ∈ real_axes then makeOne else s) :: outShapeKeep real_axes rest (i + 1)

/-- The squeezing loop of `GetOutputShape`: only non-reduced dimensions emit
their size expression. -/
def outShapeSqueeze (real_axes : List Int) : List Expr → Nat → List Expr
  | [], _ => []
  | s :: rest, i =>
    (if ((i : Int)) ∈ real_axes then [] else [s]) ++ outShapeSqueeze real_axes rest (i + 1)

/-- `GetOutputShape`: one of the two loops above, then the final clamp that
appends a single `make_one()` when the result would be empty. -/
def getOutputShape (real_axes : List Int) (tensor : Tensor) (keep_dims : Bool) : List Expr :=
  let base :=
    if keep_dims then outShapeKeep real_axes tensor.shape 0
    else outShapeSqueeze real_axes tensor.shape 0
  if base.isEmpty then [makeOne] else base

/-! ## Reduction Expression Builder (`DoReduce`, reduction.cc lines 114-148) -/

/-- The reduction-variable allocation loop of `DoReduce`: one fresh
`Var(tensor->shape[axis], UniqName("kk"))` per normalized axis, with the
unique-name counter threaded explicitly. -/
def mkReduceAxes (shape : List Expr) : List Int → Nat → List Expr
  | [], _ => []
  | a :: rest, c =>
    Expr.rvar (shape.getD a.toNat Expr.undefined) (UniqName "kk" c).1
      :: mkReduceAxes shape rest (UniqName "kk" c).2

/-- The dimension loop inside `DoReduce`'s compute lambda, over the remaining
dimension indices with the two cursors `indice_cnt` and `reduce_cnt`:
a reduced dimension takes the next reduction variable (advancing `indice_cnt`
only when the dimension is not squeezed); any other dimension takes the next
entry of the output index tuple. -/
def evalIndiceGo (real_axes squeeze_axes : List Int) (reduce_axes indices : List Expr) :
    List Nat → Nat → Nat → List Expr
  | [], _, _ => []
  | i :: rest, indice_cnt, reduce_cnt =>
    if ((i : Int)) ∈ real_axes then
      reduce_axes.getD reduce_cnt Expr.undefined ::
        evalIndiceGo real_axes squeeze_axes reduce_axes indices rest
          (indice_cnt + (if ((i : Int)) ∈ squeeze_axes then 0 else 1)) (reduce_cnt + 1)
    else
      indices.getD indice_cnt Expr.undefined ::
        evalIndiceGo real_axes squeeze_axes reduce_axes indices rest (indice_cnt + 1) reduce_cnt

/-- The full input index tuple (`eval_indice`) built by `DoReduce`'s compute
lambda for one output index tuple. -/
def evalIndice (ndim : Nat) (real_axes squeeze_axes : List Int)
    (reduce_axes indices : List Expr) : List Expr :=
  evalIndiceGo real_axes squeeze_axes reduce_axes indices (List.range ndim) 0 0

/-- `DoReduce`: allocate the reduction variables, then declare the output as a
compute definition whose body indexes the input at `eval_indice` and hands the
element, the reduction variables and the initial value to the accumulation
function. -/
def DoReduce (c : Nat) (tensor : Tensor) (fn : Expr → List Expr → Expr → Expr)
    (output_shape : List Expr) (real_axes squeeze_axes : List Int)
    (initial : Expr) (output_name : String) : Tensor :=
  let reduce_axes := mkReduceAxes tensor.shape real_axes c
  Compute output_shape
    (fun indices =>
      fn (Expr.access tensor.name
            (evalIndice tensor.shape.length real_axes squeeze_axes reduce_axes indices))
        reduce_axes initial)
    output_name

/-! ## Reduction Facade and named operations (reduction.cc lines 161-202) -/

/-- Modelled from the spec: `lang::ReduceSum` (not among the shown sources)
is the accumulation function `(element, reduction variables, identity) →`
add-fold expression. -/
def langReduceSum (e : Expr) (rv : List Expr) (init : Expr) : Expr :=
  .reduce "sum" e rv init

/-- Modelled from the spec: `lang::ReduceMul`, the multiply-fold. -/
def langReduceMul (e : Expr) (rv : List Expr) (init : Expr) : Expr :=
  .reduce "mul" e rv init

/-- Modelled from the spec: `lang::ReduceMax`, the max-fold. -/
def langReduceMax (e : Expr) (rv : List Expr) (init : Expr) : Expr :=
  .reduce "max" e rv init

/-- Modelled from the spec: `lang::ReduceMin`, the min-fold. -/
def langReduceMin (e : Expr) (rv : List Expr) (init : Expr) : Expr :=
  .reduce "min" e rv init

/-- `Reduce` (the facade): `CHECK_GT(ndim, 0)`, then
`GetRealAxes → GetOutputShape → DoReduce`, with the squeeze set equal to the
normalized axes when `keep_dims` is false and empty when it is true. -/
def Reduce (c : Nat) (tensor : Tensor) (axes : List Int)
    (fn : Expr → List Expr → Expr → Expr) (keep_dims : Bool) (initial : Expr)
    (output_name : String) : Option Tensor :=
  let ndim := tensor.shape.length
  if ndim = 0 then none
  else
    match getRealAxes (ndim : Int) axes with
    | none => none
    | some real_axes =>
      some (DoReduce c tensor fn (getOutputShape real_axes tensor keep_dims) real_axes
        (if keep_dims then [] else real_axes) initial output_name)

/-- `ReduceSum`: default identity `make_const(A->type(), 0)` when the caller
supplies no initial value. -/
def ReduceSum (c : Nat) (A : Tensor) (axes : List Int) (keep_dims : Bool)
    (initial : Expr) (output_name : String) : Option Tensor :=
  let initial := if initial.defined then initial else Expr.constOfType A.type 0
  Reduce c A axes langReduceSum keep_dims initial output_name

/-- `ReduceProd`: default identity `make_const(A->type(), 1)`. -/
def ReduceProd (c : Nat) (A : Tensor) (axes : List Int) (keep_dims : Bool)
    (initial : Expr) (output_name : String) : Option Tensor :=
  let initial := if initial.defined then initial else Expr.constOfType A.type 1
  Reduce c A axes langReduceMul keep_dims initial output_name

/-- `ReduceMax`: the caller's initial value is ignored; the facade is invoked
with the default-constructed `Expr()`. -/
def ReduceMax (c : Nat) (A : Tensor) (axes : List Int) (keep_dims : Bool)
    (initial : Expr) (output_name : String) : Option Tensor :=
  Reduce c A axes langReduceMax keep_dims Expr.undefined output_name

/-- `ReduceMin`: the caller's initial value is ignored; the facade is invoked
with the default-constructed `Expr()`. -/
def ReduceMin (c : Nat) (A : Tensor) (axes : List Int) (keep_dims : Bool)
    (initial : Expr) (output_name : String) : Option Tensor :=
  Reduce c A axes langReduceMin keep_dims Expr.undefined output_name

/-! ## Warp Reduction Builder (`WarpReduce`, reduction.cc lines 204-269) -/

/-- Modelled from the spec: `common::IndiceToAbsOffset` (not among the shown
sources) computes the flattened absolute element offset of an index tuple into
the tensor's backing storage, i.e. the row-major Horner sum over the paired
shape/index entries. -/
def indiceToAbsOffset (shape indices : List Expr) : Expr :=
  (shape.zip indices).foldl (fun acc p => Expr.add (Expr.mul acc p.1) p.2) (Expr.intImm 0)

/-- The lane loop of `WarpReduce`: starting from `Expr(1)`, multiply in
`shape[idx].as_int32()` for `idx` from `size-1` down to `size-k`, i.e. over
the reversed trailing `k` size expressions; a non-constant size aborts. -/
def buildLane (shape : List Expr) (k : Nat) : Option Expr :=
  (shape.drop (shape.length - k)).reverse.foldlM
    (fun acc s => (asInt32 s).map (fun v => Expr.mul acc (Expr.intImm v)))
    (Expr.intImm 1)

/-- `WarpReduce`.  When `last_reduce_dim_num` is at least the rank, the C++
lane loop's unsigned comparison `idx >= shape.size() - last_reduce_dim_num`
underflows (for `k` equal to the rank the loop runs past index 0 and reads
`shape[-1]`; for larger `k` the later iterator arithmetic is out of range), so
construction aborts: both are modelled as `none`, as is a non-constant
trailing dimension size.  Otherwise: build `tmp_out` over the leading
dimensions plus a trailing warp dimension of 32, whose every element calls the
`reduce_type` intrinsic on the input tensor at the flattened offset of the
leading indices followed by `k` zeros (after `CHECK_EQ` of the tuple length
against the rank), and build `out` over the leading dimensions alone, reading
`tmp_out` at trailing index 0. -/
def WarpReduce (A : Tensor) (last_reduce_dim_num : Nat) (reduce_type : String)
    (output_name : String) (c : Nat) : Option (Tensor × Tensor) :=
  if last_reduce_dim_num < A.shape.length then
    match buildLane A.shape last_reduce_dim_num with
    | none => none
    | some lane =>
      let n := A.shape.length
      let tmp_out := Compute (A.shape.take (n - last_reduce_dim_num) ++ [Expr.intImm 32])
        (fun indexs =>
          let tmp_indexs := indexs.take (indexs.length - 1)
            ++ List.replicate last_reduce_dim_num (Expr.intImm 0)
          if A.shape.length = tmp_indexs.length then
            Expr.callExtern reduce_type
              [Expr.tensorRef A.name, indiceToAbsOffset A.shape tmp_indexs, lane]
          else Expr.undefined)
        (UniqName (output_name ++ "_" ++ reduce_type) c).1
      let out := Compute (A.shape.take (n - last_reduce_dim_num))
        (fun indexs => Expr.access tmp_out.name (indexs ++ [Expr.intImm 0]))
        (UniqName output_name (c + 1)).1
      some (out, tmp_out)
  else none

/-- `WarpReduceMax`: fixes the intrinsic name. -/
def WarpReduceMax (A : Tensor) (last_reduce_dim_num : Nat) (output_name : String)
    (c : Nat) : Option (Tensor × Tensor) :=
  WarpReduce A last_reduce_dim_num "cinn_warp_reduce_max" output_name c

/-- `WarpReduceSum`: fixes the intrinsic name. -/
def WarpReduceSum (A : Tensor) (last_reduce_dim_num : Nat) (output_name : String)
    (c : Nat) : Option (Tensor × Tensor) :=
  WarpReduce A last_reduce_dim_num "cinn_warp_reduce_sum" output_name c

/-- `WarpReduceAvg`: fixes the intrinsic name. -/
def WarpReduceAvg (A : Tensor) (last_reduce_dim_num : Nat) (output_name : String)
    (c : Nat) : Option (Tensor × Tensor) :=
  WarpReduce A last_reduce_dim_num "cinn_warp_reduce_avg" output_name c

/-- A concrete rank-3 input tensor of shape `[2, 3, 4]` used by witnesses. -/
def T234 : Tensor := ⟨"B", "float32", [Expr.intImm 2, Expr.intImm 3, Expr.intImm 4], none⟩

/-- Test for the degenerate scalar-as-rank-1 shape: a single size-1 entry. -/
def isSingletonOne : List Expr → Bool
  | [Expr.intImm 1] => true
  | _ => false

/-- Placeholder tensor used as the default of `Option.getD` in statements
about reductions that are known to succeed. -/
def defaultTensor : Tensor := ⟨"", "", [], none⟩

/-- A concrete rank-2 input tensor of shape `[8, 64]` used by the warp
witnesses. -/
def T8x64 : Tensor := ⟨"A", "float32", [Expr.intImm 8, Expr.intImm 64], none⟩

/-! ## Helper lemmas: axis normalizer -/

theorem checkAxis_eq_none_iff (ndim a : Int) :
    checkAxis ndim a = none ↔ ndim < adjustAxis ndim a ∨ adjustAxis ndim a < 0 := by
  unfold checkAxis
  by_cases h1 : adjustAxis ndim a ≤ ndim <;> by_cases h2 : 0 ≤ adjustAxis ndim a <;>
    simp [h1, h2] <;> omega

theorem checkAxes_eq_none_iff (ndim : Int) (l : List Int) :
    checkAxes ndim l = none ↔ ∃ a ∈ l, checkAxis ndim a = none := by
  induction l with
  | nil => simp [checkAxes]
  | cons a rest ih =>
    unfold checkAxes
    cases ha : checkAxis ndim a with
    | none => simp [ha]
    | some b =>
      cases hr : checkAxes ndim rest with
      | none =>
        simp only [false_or]
        simp [ha, ← ih, hr]
      | some bs =>
        simp only [false_or]
        simp [ha, ← ih, hr]

/-! ## Helper lemmas: output shape deriver -/

theorem outShapeKeep_length (ra : List Int) :
    ∀ (l : List Expr) (i : Nat), (outShapeKeep ra l i).length = l.length := by
  intro l
  induction l with
  | nil => intro i; rfl
  | cons s rest ih =>
    intro i
    simp only [outShapeKeep, List.length_cons, ih]

theorem outShapeKeep_getD (ra : List Int) (d : Expr) :
    ∀ (l : List Expr) (i j : Nat), j < l.length →
      (outShapeKeep ra l i).getD j d =
        (if ((i + j : Nat) : Int) ∈ ra then makeOne else l.getD j d) := by
  intro l
  induction l with
  | nil => intro i j hj; exact absurd hj (Nat.not_lt_zero j)
  | cons s rest ih =>
    intro i j hj
    cases j with
    | zero => simp [outShapeKeep]
    | succ j =>
      have hj' : j < rest.length := Nat.lt_of_succ_lt_succ hj
      simp only [outShapeKeep, List.getD_cons_succ]
      rw [ih (i + 1) j hj']
      have : i + 1 + j = i + (j + 1) := by omega
      rw [this]

theorem outShapeSqueeze_sublist (ra : List Int) :
    ∀ (l : List Expr) (i : Nat), (outShapeSqueeze ra l i).Sublist l := by
  intro l
  induction l with
  | nil => intro i; exact List.Sublist.refl []
  | cons s rest ih =>
    intro i
    by_cases h : ((i : Int)) ∈ ra
    · simp only [outShapeSqueeze, h, if_true, List.nil_append]
      exact List.Sublist.cons s (ih (i + 1))
    · simp only [outShapeSqueeze, h, if_false, List.singleton_append]
      exact List.Sublist.cons₂ s (ih (i + 1))

theorem outShapeSqueeze_length_add (ra : List Int) :
    ∀ (l : List Expr) (i : Nat),
      (outShapeSqueeze ra l i).length +
        (List.range' i l.length).countP (fun m : Nat => decide ((m : Int) ∈ ra)) =
      l.length := by
  intro l
  induction l with
  | nil => intro i; rfl
  | cons s rest ih =>
    intro i
    rw [List.length_cons, List.range'_succ]
    by_cases h : ((i : Int)) ∈ ra
    · rw [List.countP_cons_of_pos _ _ (by simpa using h)]
      simp only [outShapeSqueeze, h, if_true, List.nil_append]
      have := ih (i + 1)
      omega
    · rw [List.countP_cons_of_neg _ _ (by simpa using h)]
      simp only [outShapeSqueeze, h, if_false, List.singleton_append, List.length_cons]
      have := ih (i + 1)
      omega

theorem outShapeSqueeze_eq_nil_iff (ra : List Int) :
    ∀ (l : List Expr) (i : Nat),
      outShapeSqueeze ra l i = [] ↔
        ∀ m ∈ List.range' i l.length, ((m : Int)) ∈ ra := by
  intro l
  induction l with
  | nil => intro i; simp [outShapeSqueeze]
  | cons s rest ih =>
    intro i
    rw [List.length_cons, List.range'_succ]
    by_cases h : ((i : Int)) ∈ ra
    · simp only [outShapeSqueeze, h, if_true, List.nil_append, ih (i + 1),
        List.mem_cons]
      constructor
      · intro hall m hm
        cases hm with
        | inl he => exact he ▸ h
        | inr hm => exact hall m hm
      · intro hall m hm
        exact hall m (Or.inr hm)
    · simp only [outShapeSqueeze, h, if_false, List.singleton_append]
      constructor
      · intro he
        exact absurd he (List.cons_ne_nil s _)
      · intro hall
        exact absurd (hall i (List.mem_cons_self i _)) h

theorem outShapeSqueeze_eq_filter_enumFrom (ra : List Int) :
    ∀ (l : List Expr) (i : Nat),
      outShapeSqueeze ra l i =
        ((List.enumFrom i l).filter
          (fun p => !decide ((p.1 : Int) ∈ ra))).map Prod.snd := by
  intro l
  induction l with
  | nil => intro i; rfl
  | cons s rest ih =>
    intro i
    rw [List.enumFrom_cons, List.filter_cons]
    by_cases h : ((i : Int)) ∈ ra
    · simp only [outShapeSqueeze, h, if_true, List.nil_append, ih (i + 1), decide_eq_true_eq,
        Bool.not_eq_true']
      simp [h]
    · simp only [outShapeSqueeze, h, if_false, List.singleton_append, ih (i + 1)]
      simp [h]

theorem countP_range_mem_eq_dedup_length (ra : List Int) (n : Nat)
    (hb : ∀ a ∈ ra, 0 ≤ a ∧ a < (n : Int)) :
    (List.range n).countP (fun m : Nat => decide ((m : Int) ∈ ra)) = ra.dedup.length := by
  rw [List.countP_eq_length_filter]
  have hinj : Function.Injective (fun m : Nat => (m : Int)) := fun a b h => Int.natCast_inj.mp h
  have h1 : (((List.range n).filter (fun m : Nat => decide ((m : Int) ∈ ra))).map
      (fun m : Nat => (m : Int))).Nodup :=
    (((List.nodup_range n).filter _).map hinj)
  have h2 : ra.dedup.Nodup := List.nodup_dedup ra
  have hmem : ∀ x, (x ∈ ((List.range n).filter
      (fun m : Nat => decide ((m : Int) ∈ ra))).map (fun m : Nat => (m : Int))) ↔ x ∈ ra.dedup := by
    intro x
    simp only [List.mem_map, List.mem_filter, List.mem_range, List.mem_dedup,
      decide_eq_true_eq]
    constructor
    · rintro ⟨m, ⟨_, hmem⟩, rfl⟩
      exact hmem
    · intro hx
      have hx' := hb x hx
      refine ⟨x.toNat, ⟨by omega, ?_⟩, by omega⟩
      have hxx : ((x.toNat : Nat) : Int) = x := by omega
      rw [hxx]
      exact hx
  have hperm := (List.perm_ext_iff_of_nodup h1 h2).mpr hmem
  have := hperm.length_eq
  rw [List.length_map] at this
  exact this

/-! ## Helper lemmas: reduction expression builder -/

theorem evalIndiceGo_length (ra sq : List Int) (rv ind : List Expr) :
    ∀ (l : List Nat) (ic rc : Nat), (evalIndiceGo ra sq rv ind l ic rc).length = l.length := by
  intro l
  induction l with
  | nil => intro ic rc; rfl
  | cons i rest ih =>
    intro ic rc
    by_cases hmem : ((i : Int)) ∈ ra
    · simp only [evalIndiceGo, hmem, if_true, List.length_cons, ih]
    · simp only [evalIndiceGo, hmem, if_false, List.length_cons, ih]

theorem getD_if_congr (P : Prop) [Decidable P] (rv ind : List Expr) (d : Expr)
    (a b a2 b2 : Nat) (ha : a = a2) (hb : b = b2) :
    (if P then rv.getD a d else ind.getD b d) =
      (if P then rv.getD a2 d else ind.getD b2 d) := by
  rw [ha, hb]

theorem evalIndiceGo_getD (ra sq : List Int) (rv ind : List Expr) :
    ∀ (l : List Nat) (ic rc j : Nat), j < l.length →
      (evalIndiceGo ra sq rv ind l ic rc).getD j Expr.undefined =
        if ((l.getD j 0 : Nat) : Int) ∈ ra then
          rv.getD (rc + (l.take j).countP (fun m : Nat => decide ((m : Int) ∈ ra)))
            Expr.undefined
        else
          ind.getD (ic + (l.take j).countP
              (fun m : Nat => decide (¬((m : Int) ∈ ra ∧ (m : Int) ∈ sq))))
            Expr.undefined := by
  intro l
  induction l with
  | nil => intro ic rc j hj; exact absurd hj (Nat.not_lt_zero j)
  | cons i rest ih =>
    intro ic rc j hj
    by_cases hmem : ((i : Int)) ∈ ra
    · cases j with
      | zero =>
        simp only [evalIndiceGo]
        rw [if_pos hmem]
        simp only [List.getD_cons_zero, List.take_zero, List.countP_nil, Nat.add_zero]
        rw [if_pos hmem]
      | succ j =>
        have hj2 : j < rest.length := Nat.lt_of_succ_lt_succ hj
        have eA : (if (decide ((i : Int) ∈ ra)) = true then 1 else 0) = 1 := by
          simp [hmem]
        have eS : (if (decide (¬((i : Int) ∈ ra ∧ (i : Int) ∈ sq))) = true then 1 else 0)
            = (if ((i : Int)) ∈ sq then 0 else 1) := by
          by_cases hsq : ((i : Int)) ∈ sq <;> simp [hmem, hsq]
        simp only [evalIndiceGo]
        rw [if_pos hmem]
        simp only [List.getD_cons_succ, List.take_succ_cons, List.countP_cons]
        rw [ih _ _ j hj2]
        refine getD_if_congr _ _ _ _ _ _ _ _ ?_ ?_
        · rw [eA]
          omega
        · rw [eS]
          by_cases hsq : ((i : Int)) ∈ sq <;> simp only [hsq, if_true, if_false] <;> omega
    · cases j with
      | zero =>
        simp only [evalIndiceGo]
        rw [if_neg hmem]
        simp only [List.getD_cons_zero, List.take_zero, List.countP_nil, Nat.add_zero]
        rw [if_neg hmem]
      | succ j =>
        have hj2 : j < rest.length := Nat.lt_of_succ_lt_succ hj
        have eA : (if (decide ((i : Int) ∈ ra)) = true then 1 else 0) = 0 := by
          simp [hmem]
        have eS : (if (decide (¬((i : Int) ∈ ra ∧ (i : Int) ∈ sq))) = true then 1 else 0)
            = 1 := by
          simp [hmem]
        simp only [evalIndiceGo]
        rw [if_neg hmem]
        simp only [List.getD_cons_succ, List.take_succ_cons, List.countP_cons]
        rw [ih _ _ j hj2]
        refine getD_if_congr _ _ _ _ _ _ _ _ ?_ ?_
        · rw [eA]
          omega
        · rw [eS]
          omega

theorem getOutputShape_eq_of_ne_nil (ra : List Int) (t : Tensor) (kd : Bool)
    (h : (if kd then outShapeKeep ra t.shape 0 else outShapeSqueeze ra t.shape 0) ≠ []) :
    getOutputShape ra t kd =
      (if kd then outShapeKeep ra t.shape 0 else outShapeSqueeze ra t.shape 0) := by
  simp only [getOutputShape]
  cases hx : (if kd then outShapeKeep ra t.shape 0 else outShapeSqueeze ra t.shape 0) with
  | nil => exact absurd hx h
  | cons a l => rfl

theorem getOutputShape_eq_makeOne_of_nil (ra : List Int) (t : Tensor) (kd : Bool)
    (h : (if kd then outShapeKeep ra t.shape 0 else outShapeSqueeze ra t.shape 0) = []) :
    getOutputShape ra t kd = [makeOne] := by
  simp only [getOutputShape]
  rw [h]
  rfl

theorem getOutputShape_ne_nil (ra : List Int) (t : Tensor) (kd : Bool) :
    getOutputShape ra t kd ≠ [] := by
  simp only [getOutputShape]
  cases hx : (if kd then outShapeKeep ra t.shape 0 else outShapeSqueeze ra t.shape 0) with
  | nil => simp
  | cons a l => simp

/-! ## Helper lemmas: facade plumbing -/

theorem Reduce_eq_some (c : Nat) (t : Tensor) (axes : List Int)
    (fn : Expr → List Expr → Expr → Expr) (kd : Bool) (initial : Expr) (nm : String)
    (ra : List Int) (hn : ¬ t.shape.length = 0)
    (hra : getRealAxes (t.shape.length : Int) axes = some ra) :
    Reduce c t axes fn kd initial nm =
      some (DoReduce c t fn (getOutputShape ra t kd) ra
        (if kd then [] else ra) initial nm) := by
  simp only [Reduce]
  rw [if_neg hn, hra]

/-! ## Helper lemmas: warp reduction builder -/

theorem foldLane_eval (ws : List Int) :
    ∀ (accE : Expr) (accV : Int), evalInt accE = some accV →
      ∃ e, (ws.map Expr.intImm).foldlM
          (fun acc s => (asInt32 s).map (fun v => Expr.mul acc (Expr.intImm v)))
          accE = some e
        ∧ evalInt e = some (accV * ws.prod) := by
  induction ws with
  | nil =>
    intro accE accV h
    exact ⟨accE, rfl, by rw [List.prod_nil, mul_one]; exact h⟩
  | cons w ws ih =>
    intro accE accV h
    have hstep : evalInt (Expr.mul accE (Expr.intImm w)) = some (accV * w) := by
      simp [evalInt, h]
    obtain ⟨e, he, hv⟩ := ih (Expr.mul accE (Expr.intImm w)) (accV * w) hstep
    refine ⟨e, ?_, ?_⟩
    · simpa [asInt32, Option.map_some', Option.bind] using he
    · rw [hv, List.prod_cons, mul_assoc]

theorem buildLane_split (front : List Expr) (back : List Int) :
    ∃ lane, buildLane (front ++ back.map Expr.intImm) back.length = some lane ∧
      evalInt lane = some back.prod := by
  have hdrop : (front ++ back.map Expr.intImm).drop
      ((front ++ back.map Expr.intImm).length - back.length) = back.map Expr.intImm := by
    apply List.drop_left'
    rw [List.length_append, List.length_map]
    omega
  obtain ⟨e, he, hv⟩ := foldLane_eval back.reverse (Expr.intImm 1) 1 rfl
  refine ⟨e, ?_, ?_⟩
  · rw [buildLane, hdrop, ← List.map_reverse]
    exact he
  · rw [hv, one_mul, List.prod_reverse]

theorem evalInt_horner (ps : List (Int × Int)) :
    ∀ (accE : Expr) (accV : Int), evalInt accE = some accV →
      evalInt ((ps.map (Prod.map Expr.intImm Expr.intImm)).foldl
          (fun acc q => Expr.add (Expr.mul acc q.1) q.2) accE)
        = some (ps.foldl (fun a p => a * p.1 + p.2) accV) := by
  induction ps with
  | nil => intro accE accV h; exact h
  | cons p ps ih =>
    intro accE accV h
    have hstep : evalInt (Expr.add (Expr.mul accE (Expr.intImm p.1)) (Expr.intImm p.2))
        = some (accV * p.1 + p.2) := by
      simp [evalInt, h]
    simpa using ih _ _ hstep

theorem horner_zero_mult (bs : List Int) :
    ∀ (v : Int), (bs.map (fun b => (b, (0 : Int)))).foldl
        (fun a p => a * p.1 + p.2) v = v * bs.prod := by
  induction bs with
  | nil => intro v; rw [List.prod_nil, mul_one]; rfl
  | cons b bs ih =>
    intro v
    simp only [List.map_cons, List.foldl_cons, add_zero, List.prod_cons]
    rw [ih (v * b), mul_assoc]

theorem zip_replicate_zero (bs : List Int) :
    bs.zip (List.replicate bs.length (0 : Int)) = bs.map (fun b => (b, (0 : Int))) := by
  induction bs with
  | nil => rfl
  | cons b bs ih =>
    simp only [List.length_cons, List.replicate_succ, List.zip_cons_cons, List.map_cons, ih]

/-! ## Claim theorems -/

/-- C1: the claim states that for in-range axis lists `GetRealAxes` returns a
sorted, duplicate-free list.  The code runs `std::unique` (adjacent
deduplication) before `std::sort`, so a non-adjacent duplicate survives:
for `ndim = 4`, `axes = [1, 3, 1]` — all in range — the result is
`[1, 1, 3]`, which still contains the duplicate `1`, contradicting the
function's own documentation (`@param real_axes ... with no duplicates`). -/
theorem getRealAxes_unique_before_sort_bug :
    getRealAxes 4 [1, 3, 1] = some [1, 1, 3] ∧ ¬ ([1, 1, 3] : List Int).Nodup := by
  decide

/-- C4: for positive rank and a non-empty raw axis list, `GetRealAxes` fails
exactly when some axis, after Python-style adjustment, is strictly above
`ndim` or below `0`; in particular the adjusted value `ndim` itself passes. -/
theorem getRealAxes_invalid_axis_iff (ndim : Int) (axes : List Int)
    (h0 : 0 < ndim) (hne : axes ≠ []) :
    getRealAxes ndim axes = none ↔
      ∃ a ∈ axes, ndim < adjustAxis ndim a ∨ adjustAxis ndim a < 0 := by
  have hempty : axes.isEmpty = false := by
    cases axes with
    | nil => exact absurd rfl hne
    | cons a t => rfl
  unfold getRealAxes
  rw [hempty]
  simp only [Bool.false_eq_true, if_false]
  cases hch : checkAxes ndim axes with
  | none =>
    simp only [true_iff]
    have := (checkAxes_eq_none_iff ndim axes).mp hch
    obtain ⟨a, ha, hnone⟩ := this
    exact ⟨a, ha, (checkAxis_eq_none_iff ndim a).mp hnone⟩
  | some adjusted =>
    simp only [reduceCtorEq, false_iff, not_exists]
    intro a ha
    have : checkAxes ndim axes = none :=
      (checkAxes_eq_none_iff ndim axes).mpr
        ⟨a, ha.1, (checkAxis_eq_none_iff ndim a).mpr ha.2⟩
    rw [this] at hch
    exact Option.noConfusion hch

/-- C4 witness: `ndim = 3, axes = [5]` and `ndim = 3, axes = [-10]` fail with
the invalid-axis condition, while the adjusted value `ndim` itself
(`ndim = 3, axes = [3]`) passes validation. -/
theorem getRealAxes_invalid_axis_iff_witness :
    (0 < (3 : Int)) ∧ (([5] : List Int) ≠ []) ∧ (([-10] : List Int) ≠ []) ∧
    getRealAxes 3 [5] = none ∧ getRealAxes 3 [-10] = none ∧
    getRealAxes 3 [3] ≠ none :=
  ⟨by decide, by decide, by decide,
    (getRealAxes_invalid_axis_iff 3 [5] (by decide) (by decide)).mpr
      ⟨5, by decide, by decide⟩,
    (getRealAxes_invalid_axis_iff 3 [-10] (by decide) (by decide)).mpr
      ⟨-10, by decide, by decide⟩,
    fun h =>
      absurd ((getRealAxes_invalid_axis_iff 3 [3] (by decide) (by decide)).mp h)
        (by decide)⟩

/-- C2: `DoReduce` builds the per-output-element input index tuple by walking
the input dimensions with two cursors: position `j` holds the `reduce_cnt`-th
reduction variable when `j` is a reduced axis — where `reduce_cnt` counts the
reduced axes before `j`, and the output-index cursor advanced exactly at the
earlier positions that are not both reduced and squeezed, never reading the
output tuple here — and otherwise holds the output index entry at the cursor
that advanced at every earlier non-reduced or non-squeezed position. -/
theorem doReduce_evalIndice_spec (ndim : Nat) (real_axes squeeze_axes : List Int)
    (reduce_axes indices : List Expr) (j : Nat) (hj : j < ndim) :
    (evalIndice ndim real_axes squeeze_axes reduce_axes indices).length = ndim ∧
    (evalIndice ndim real_axes squeeze_axes reduce_axes indices).getD j Expr.undefined =
      (if ((j : Int)) ∈ real_axes then
        reduce_axes.getD
          ((List.range j).countP (fun m : Nat => decide ((m : Int) ∈ real_axes)))
          Expr.undefined
      else
        indices.getD
          ((List.range j).countP
            (fun m : Nat => decide (¬((m : Int) ∈ real_axes ∧ (m : Int) ∈ squeeze_axes))))
          Expr.undefined) := by
  constructor
  · rw [evalIndice, evalIndiceGo_length, List.length_range]
  · have h := evalIndiceGo_getD real_axes squeeze_axes reduce_axes indices
      (List.range ndim) 0 0 j (by simpa using hj)
    rw [evalIndice, h]
    have hget : (List.range ndim).getD j 0 = j := by
      rw [List.getD_eq_getElem?_getD, List.getElem?_range hj, Option.getD_some]
    have htake : (List.range ndim).take j = List.range j := by
      rw [List.take_range, Nat.min_eq_left (Nat.le_of_lt hj)]
    rw [hget, htake, Nat.zero_add, Nat.zero_add]

/-- C2 witness: four dimensions, reduced axes `{0, 2}`, squeeze set `{2}`:
position 2 is the second reduction variable, with the output cursor having
advanced at positions 0 (reduced, unsqueezed) and 1 (pass-through). -/
theorem doReduce_evalIndice_spec_witness :
    (2 < 4) ∧
    ((evalIndice 4 [0, 2] [2] [Expr.rvar (Expr.intImm 5) "kk_0", Expr.rvar (Expr.intImm 7) "kk_1"]
        [Expr.intImm 9, Expr.intImm 8]).length = 4 ∧
     (evalIndice 4 [0, 2] [2] [Expr.rvar (Expr.intImm 5) "kk_0", Expr.rvar (Expr.intImm 7) "kk_1"]
        [Expr.intImm 9, Expr.intImm 8]).getD 2 Expr.undefined =
      (if (((2 : Nat) : Int)) ∈ ([0, 2] : List Int) then
        ([Expr.rvar (Expr.intImm 5) "kk_0", Expr.rvar (Expr.intImm 7) "kk_1"]).getD
          ((List.range 2).countP (fun m : Nat => decide ((m : Int) ∈ ([0, 2] : List Int))))
          Expr.undefined
      else
        ([Expr.intImm 9, Expr.intImm 8]).getD
          ((List.range 2).countP
            (fun m : Nat => decide (¬((m : Int) ∈ ([0, 2] : List Int)
              ∧ (m : Int) ∈ ([2] : List Int)))))
          Expr.undefined)) :=
  ⟨by decide,
    doReduce_evalIndice_spec 4 [0, 2] [2]
      [Expr.rvar (Expr.intImm 5) "kk_0", Expr.rvar (Expr.intImm 7) "kk_1"]
      [Expr.intImm 9, Expr.intImm 8] 2 (by decide)⟩

/-- C3: with `keep_dims = true`, `GetOutputShape` emits one entry per input
dimension — a constant 1 for reduced dimensions, the input's size expression
verbatim otherwise — so the output rank equals the input rank; with
`keep_dims = false` it emits exactly the non-reduced dimensions' size
expressions in original order (equal to the index-filtered input shape, and
in particular an order-preserving sublist of it) of length `ndim` minus the
number of distinct reduced axes, clamped to the single size-1 entry when every
dimension is reduced. -/
theorem getOutputShape_spec (t : Tensor) (real_axes : List Int) (j : Nat)
    (hn : 0 < t.shape.length)
    (hb : ∀ a ∈ real_axes, 0 ≤ a ∧ a < (t.shape.length : Int))
    (hj : j < t.shape.length) :
    (getOutputShape real_axes t true).length = t.shape.length ∧
    (getOutputShape real_axes t true).getD j Expr.undefined =
      (if ((j : Int)) ∈ real_axes then makeOne else t.shape.getD j Expr.undefined) ∧
    ((¬ ∀ m : Nat, m < t.shape.length → ((m : Int)) ∈ real_axes) →
      (getOutputShape real_axes t false).Sublist t.shape ∧
      getOutputShape real_axes t false =
        ((t.shape.enum.filter
          (fun p => !decide ((p.1 : Int) ∈ real_axes))).map Prod.snd) ∧
      (getOutputShape real_axes t false).length
        = t.shape.length - real_axes.dedup.length) ∧
    ((∀ m : Nat, m < t.shape.length → ((m : Int)) ∈ real_axes) →
      getOutputShape real_axes t false = [makeOne]) := by
  have hkeeplen := outShapeKeep_length real_axes t.shape 0
  have hkne : outShapeKeep real_axes t.shape 0 ≠ [] := by
    intro h0
    rw [h0] at hkeeplen
    simp only [List.length_nil] at hkeeplen
    omega
  have hkeq : getOutputShape real_axes t true = outShapeKeep real_axes t.shape 0 := by
    simpa using getOutputShape_eq_of_ne_nil real_axes t true (by simpa using hkne)
  refine ⟨?_, ?_, ?_, ?_⟩
  · rw [hkeq]
    exact hkeeplen
  · rw [hkeq]
    have h := outShapeKeep_getD real_axes Expr.undefined t.shape 0 j hj
    rwa [Nat.zero_add] at h
  · intro hnot
    have hne : outShapeSqueeze real_axes t.shape 0 ≠ [] := by
      intro h0
      apply hnot
      intro m hm
      exact (outShapeSqueeze_eq_nil_iff real_axes t.shape 0).mp h0 m
        (List.mem_range'_1.mpr ⟨Nat.zero_le m, by omega⟩)
    have hseq : getOutputShape real_axes t false = outShapeSqueeze real_axes t.shape 0 := by
      simpa using getOutputShape_eq_of_ne_nil real_axes t false (by simpa using hne)
    refine ⟨?_, ?_, ?_⟩
    · rw [hseq]
      exact outShapeSqueeze_sublist real_axes t.shape 0
    · rw [hseq]
      exact outShapeSqueeze_eq_filter_enumFrom real_axes t.shape 0
    · rw [hseq]
      have hadd := outShapeSqueeze_length_add real_axes t.shape 0
      have hc : (List.range' 0 t.shape.length).countP
          (fun m : Nat => decide ((m : Int) ∈ real_axes)) = real_axes.dedup.length := by
        rw [← List.range_eq_range']
        exact countP_range_mem_eq_dedup_length real_axes t.shape.length hb
      omega
  · intro hall
    apply getOutputShape_eq_makeOne_of_nil real_axes t false
    simp only [Bool.false_eq_true, if_false]
    apply (outShapeSqueeze_eq_nil_iff real_axes t.shape 0).mpr
    intro m hm
    exact hall m (by have := List.mem_range'_1.mp hm; omega)

/-- C3 witness: shape `[2,3,4]`, axes `{1}`: keep-dims output has rank 3 with
a 1 in position 1, squeezed output is a rank-2 sublist `[2,4]`. -/
theorem getOutputShape_spec_witness :
    (0 < T234.shape.length) ∧
    (∀ a ∈ ([1] : List Int), 0 ≤ a ∧ a < (T234.shape.length : Int)) ∧
    (1 < T234.shape.length) ∧
    (getOutputShape [1] T234 true).length = T234.shape.length ∧
    (getOutputShape [1] T234 true).getD 1 Expr.undefined =
      (if (((1 : Nat) : Int)) ∈ ([1] : List Int) then makeOne
       else T234.shape.getD 1 Expr.undefined) ∧
    (getOutputShape [1] T234 false).Sublist T234.shape ∧
    getOutputShape [1] T234 false =
      ((T234.shape.enum.filter
        (fun p => !decide ((p.1 : Int) ∈ ([1] : List Int)))).map Prod.snd) ∧
    (getOutputShape [1] T234 false).length
      = T234.shape.length - ([1] : List Int).dedup.length := by
  have h := getOutputShape_spec T234 [1] 1 (by decide) (by decide) (by decide)
  exact ⟨by decide, by decide, by decide, h.1, h.2.1,
    (h.2.2.1 (by decide)).1, (h.2.2.1 (by decide)).2.1, (h.2.2.1 (by decide)).2.2⟩

/-- C5: every result tensor returned by the facade path or the warp path has a
non-empty shape; in the all-dimensions-eliminated facade case (empty axis
list, `keep_dims = false`) the shape degenerates to the single size-1 entry.
The warp path with `last_reduce_dim_num` at least the rank never returns
(its lane loop's unsigned comparison underflows and construction aborts), so
every pair it does return has non-empty shapes on both tensors. -/
theorem reduction_result_shape_never_empty (c : Nat) (t : Tensor) (axes : List Int)
    (fn : Expr → List Expr → Expr → Expr) (kd : Bool) (initial : Expr) (nm : String)
    (A : Tensor) (k : Nat) (rt onm : String) (c2 : Nat) :
    ((Reduce c t axes fn kd initial nm).all (fun r => !r.shape.isEmpty)) = true ∧
    ((WarpReduce A k rt onm c2).all
      (fun p => !p.1.shape.isEmpty && !p.2.shape.isEmpty)) = true ∧
    ((Reduce c t [] fn false initial nm).all (fun r => isSingletonOne r.shape)) = true := by
  refine ⟨?_, ?_, ?_⟩
  · by_cases hn : t.shape.length = 0
    · simp [Reduce, hn]
    · cases hra : getRealAxes (t.shape.length : Int) axes with
      | none =>
        simp only [Reduce]
        rw [if_neg hn, hra]
        rfl
      | some ra =>
        rw [Reduce_eq_some c t axes fn kd initial nm ra hn hra]
        simp only [Option.all_some]
        have hne := getOutputShape_ne_nil ra t kd
        simp [DoReduce, Compute, hne]
  · by_cases hk : k < A.shape.length
    · cases hl : buildLane A.shape k with
      | none =>
        simp only [WarpReduce]
        rw [if_pos hk, hl]
        rfl
      | some lane =>
        simp only [WarpReduce]
        rw [if_pos hk, hl]
        simp only [Option.all_some]
        have h1 : (A.shape.take (A.shape.length - k)) ≠ [] := by
          apply List.ne_nil_of_length_pos
          rw [List.length_take]
          omega
        simp [Compute, h1]
    · simp only [WarpReduce]
      rw [if_neg hk]
      rfl
  · by_cases hn : t.shape.length = 0
    · simp [Reduce, hn]
    · have hra : getRealAxes (t.shape.length : Int) [] =
          some ((List.range ((t.shape.length : Int)).toNat).map (fun m : Nat => (m : Int))) :=
        rfl
      rw [Reduce_eq_some c t [] fn false initial nm _ hn hra]
      simp only [Option.all_some]
      have htn : ((t.shape.length : Int)).toNat = t.shape.length := Int.toNat_natCast _
      have hall : getOutputShape
          ((List.range ((t.shape.length : Int)).toNat).map (fun m : Nat => (m : Int)))
          t false = [makeOne] := by
        apply getOutputShape_eq_makeOne_of_nil
        simp only [Bool.false_eq_true, if_false]
        apply (outShapeSqueeze_eq_nil_iff _ t.shape 0).mpr
        intro m hm
        have hb := List.mem_range'_1.mp hm
        exact List.mem_map.mpr ⟨m, List.mem_range.mpr (by omega), rfl⟩
      rw [htn] at hall
      simp [DoReduce, Compute, hall, isSingletonOne, makeOne]

/-- C6: for a tensor whose trailing `k` dimension sizes are integer constants
(`1 ≤ k <` rank), `WarpReduce` returns `(out, tmp_out)` where `tmp_out`'s
shape is the leading dimensions plus a trailing warp dimension of exactly 32,
every `tmp_out` element calls the external intrinsic named by `reduce_type`
with arguments (input tensor, flattened absolute offset of the leading
indices followed by `k` zeros, lane), and `out`'s shape is exactly the
leading dimensions, each element selecting index 0 of `tmp_out`'s trailing
warp dimension. -/
theorem warpReduce_structure (A : Tensor) (front : List Expr) (back : List Int)
    (rt onm : String) (c : Nat) (lead : List Expr) (w : Expr)
    (hshape : A.shape = front ++ back.map Expr.intImm)
    (hkpos : 0 < back.length) (hfront : 0 < front.length)
    (hlead : lead.length = front.length) :
    ∃ out tmp lane,
      WarpReduce A back.length rt onm c = some (out, tmp) ∧
      evalInt lane = some back.prod ∧
      tmp.shape = front ++ [Expr.intImm 32] ∧
      out.shape = front ∧
      tmp.bodyAt (lead ++ [w]) =
        Expr.callExtern rt [Expr.tensorRef A.name,
          indiceToAbsOffset A.shape (lead ++ List.replicate back.length (Expr.intImm 0)),
          lane] ∧
      out.bodyAt lead = Expr.access tmp.name (lead ++ [Expr.intImm 0]) := by
  obtain ⟨lane, hl, hv⟩ := buildLane_split front back
  have hlen : A.shape.length = front.length + back.length := by
    rw [hshape, List.length_append, List.length_map]
  have hk : back.length < A.shape.length := by omega
  have hbl : buildLane A.shape back.length = some lane := by rw [hshape]; exact hl
  have htakef : A.shape.take (A.shape.length - back.length) = front := by
    rw [hshape]
    apply List.take_left'
    rw [List.length_append, List.length_map]
    omega
  have htakel : (lead ++ [w]).take ((lead ++ [w]).length - 1) = lead := by
    rw [List.length_append, List.length_cons, List.length_nil, Nat.add_sub_cancel]
    exact List.take_left lead [w]
  refine
    ⟨Compute (A.shape.take (A.shape.length - back.length))
        (fun indexs =>
          Expr.access (UniqName (onm ++ "_" ++ rt) c).1 (indexs ++ [Expr.intImm 0]))
        (UniqName onm (c + 1)).1,
      Compute (A.shape.take (A.shape.length - back.length) ++ [Expr.intImm 32])
        (fun indexs =>
          let tmp_indexs := indexs.take (indexs.length - 1)
            ++ List.replicate back.length (Expr.intImm 0)
          if A.shape.length = tmp_indexs.length then
            Expr.callExtern rt
              [Expr.tensorRef A.name, indiceToAbsOffset A.shape tmp_indexs, lane]
          else Expr.undefined)
        (UniqName (onm ++ "_" ++ rt) c).1,
      lane, ?_, hv, ?_, ?_, ?_, ?_⟩
  · simp only [WarpReduce]
    rw [if_pos hk, hbl]
    rfl
  · simp only [Compute, htakef]
  · simp only [Compute, htakef]
  · simp only [Tensor.bodyAt, Compute, htakel]
    rw [if_pos]
    rw [List.length_append, List.length_replicate, hlead]
    omega
  · simp only [Tensor.bodyAt, Compute]

/-- C6 witness: input shape `[8, 64]`, `last_reduce_dim_num = 1`, leading
index 5 and warp-lane index 3. -/
theorem warpReduce_structure_witness :
    (T8x64.shape = [Expr.intImm 8] ++ ([64] : List Int).map Expr.intImm) ∧
    (0 < ([64] : List Int).length) ∧ (0 < ([Expr.intImm 8] : List Expr).length) ∧
    (([Expr.intImm 5] : List Expr).length = ([Expr.intImm 8] : List Expr).length) ∧
    (∃ out tmp lane,
      WarpReduce T8x64 ([64] : List Int).length "cinn_warp_reduce_sum" "o" 0
        = some (out, tmp) ∧
      evalInt lane = some ([64] : List Int).prod ∧
      tmp.shape = [Expr.intImm 8] ++ [Expr.intImm 32] ∧
      out.shape = [Expr.intImm 8] ∧
      tmp.bodyAt ([Expr.intImm 5] ++ [Expr.intImm 3]) =
        Expr.callExtern "cinn_warp_reduce_sum" [Expr.tensorRef T8x64.name,
          indiceToAbsOffset T8x64.shape
            ([Expr.intImm 5] ++ List.replicate ([64] : List Int).length (Expr.intImm 0)),
          lane] ∧
      out.bodyAt [Expr.intImm 5] = Expr.access tmp.name ([Expr.intImm 5] ++ [Expr.intImm 0])) :=
  ⟨rfl, by decide, by decide, by decide,
    warpReduce_structure T8x64 [Expr.intImm 8] [64] "cinn_warp_reduce_sum" "o" 0
      [Expr.intImm 5] (Expr.intImm 3) rfl (by decide) (by decide) (by decide)⟩

/-- C7: with all dimension sizes constant, every intrinsic call emitted by
`WarpReduce` passes a lane value equal to the product of the trailing `k`
dimension sizes, and the offset argument of every emitted call — here at an
arbitrary concrete tuple of leading indices — evaluates to a multiple of that
lane value. -/
theorem warpReduce_lane_offset (A : Tensor) (fronts backs vals : List Int)
    (rt onm : String) (c : Nat) (w : Expr)
    (hshape : A.shape = (fronts ++ backs).map Expr.intImm)
    (hkpos : 0 < backs.length) (hfront : 0 < fronts.length)
    (hvals : vals.length = fronts.length) :
    ∃ out tmp lane off m,
      WarpReduce A backs.length rt onm c = some (out, tmp) ∧
      tmp.bodyAt (vals.map Expr.intImm ++ [w]) =
        Expr.callExtern rt [Expr.tensorRef A.name, off, lane] ∧
      evalInt lane = some backs.prod ∧
      evalInt off = some m ∧
      backs.prod ∣ m := by
  have hshape2 : A.shape = fronts.map Expr.intImm ++ backs.map Expr.intImm := by
    rw [hshape, List.map_append]
  obtain ⟨out, tmp, lane, hwr, hv, htshape, hoshape, hbody, hobody⟩ :=
    warpReduce_structure A (fronts.map Expr.intImm) backs rt onm c
      (vals.map Expr.intImm) w hshape2 hkpos (by simpa using hfront)
      (by rw [List.length_map, List.length_map, hvals])
  have hidx : vals.map Expr.intImm ++ List.replicate backs.length (Expr.intImm 0)
      = (vals ++ List.replicate backs.length (0 : Int)).map Expr.intImm := by
    rw [List.map_append, List.map_replicate]
  have hoff : evalInt (indiceToAbsOffset A.shape
      (vals.map Expr.intImm ++ List.replicate backs.length (Expr.intImm 0)))
      = some (((fronts.zip vals).foldl (fun a p => a * p.1 + p.2) 0) * backs.prod) := by
    rw [hshape, indiceToAbsOffset, hidx, List.zip_map, List.zip_append hvals.symm,
      zip_replicate_zero backs,
      evalInt_horner (fronts.zip vals ++ backs.map (fun b => (b, (0 : Int))))
        (Expr.intImm 0) 0 rfl,
      List.foldl_append, horner_zero_mult backs]
  exact ⟨out, tmp, lane,
    indiceToAbsOffset A.shape
      (vals.map Expr.intImm ++ List.replicate backs.length (Expr.intImm 0)),
    ((fronts.zip vals).foldl (fun a p => a * p.1 + p.2) 0) * backs.prod,
    hwr, hbody, hv, hoff,
    dvd_mul_left backs.prod ((fronts.zip vals).foldl (fun a p => a * p.1 + p.2) 0)⟩

/-- C7 witness: input shape `[8, 64]`, `last_reduce_dim_num = 1`, leading
index 5: the lane is 64 and the offset (320) is a multiple of 64. -/
theorem warpReduce_lane_offset_witness :
    (T8x64.shape = (([8] ++ [64] : List Int)).map Expr.intImm) ∧
    (0 < ([64] : List Int).length) ∧ (0 < ([8] : List Int).length) ∧
    (([5] : List Int).length = ([8] : List Int).length) ∧
    (∃ out tmp lane off m,
      WarpReduce T8x64 ([64] : List Int).length "cinn_warp_reduce_max" "o" 0
        = some (out, tmp) ∧
      tmp.bodyAt (([5] : List Int).map Expr.intImm ++ [Expr.intImm 3]) =
        Expr.callExtern "cinn_warp_reduce_max" [Expr.tensorRef T8x64.name, off, lane] ∧
      evalInt lane = some ([64] : List Int).prod ∧
      evalInt off = some m ∧
      ([64] : List Int).prod ∣ m) :=
  ⟨rfl, by decide, by decide, by decide,
    warpReduce_lane_offset T8x64 [8] [64] [5] "cinn_warp_reduce_max" "o" 0
      (Expr.intImm 3) rfl (by decide) (by decide) (by decide)⟩

/-- C8: when the caller supplies no initial value, `ReduceSum` passes the
constant 0 in the input's element type as the fold identity and `ReduceProd`
passes the constant 1; a defined caller-supplied initial value is passed
through unchanged by both. -/
theorem reduceSumProd_default_identity (c : Nat) (A : Tensor) (axes : List Int)
    (kd : Bool) (nm : String) (idx : List Expr) (initial : Expr) (ra : List Int)
    (hn : ¬ A.shape.length = 0)
    (hra : getRealAxes (A.shape.length : Int) axes = some ra)
    (hdef : initial.defined = true) :
    Expr.reduceInit
        (((ReduceSum c A axes kd Expr.undefined nm).getD defaultTensor).bodyAt idx)
      = Expr.constOfType A.type 0 ∧
    Expr.reduceInit
        (((ReduceProd c A axes kd Expr.undefined nm).getD defaultTensor).bodyAt idx)
      = Expr.constOfType A.type 1 ∧
    Expr.reduceInit
        (((ReduceSum c A axes kd initial nm).getD defaultTensor).bodyAt idx)
      = initial ∧
    Expr.reduceInit
        (((ReduceProd c A axes kd initial nm).getD defaultTensor).bodyAt idx)
      = initial ∧
    (ReduceSum c A axes kd Expr.undefined nm).isSome = true ∧
    (ReduceProd c A axes kd Expr.undefined nm).isSome = true := by
  refine ⟨?_, ?_, ?_, ?_, ?_, ?_⟩
  · simp [ReduceSum, Expr.defined,
      Reduce_eq_some c A axes langReduceSum kd (Expr.constOfType A.type 0) nm ra hn hra,
      DoReduce, Compute, Tensor.bodyAt, langReduceSum, Expr.reduceInit]
  · simp [ReduceProd, Expr.defined,
      Reduce_eq_some c A axes langReduceMul kd (Expr.constOfType A.type 1) nm ra hn hra,
      DoReduce, Compute, Tensor.bodyAt, langReduceMul, Expr.reduceInit]
  · simp [ReduceSum, hdef,
      Reduce_eq_some c A axes langReduceSum kd initial nm ra hn hra,
      DoReduce, Compute, Tensor.bodyAt, langReduceSum, Expr.reduceInit]
  · simp [ReduceProd, hdef,
      Reduce_eq_some c A axes langReduceMul kd initial nm ra hn hra,
      DoReduce, Compute, Tensor.bodyAt, langReduceMul, Expr.reduceInit]
  · simp [ReduceSum, Expr.defined,
      Reduce_eq_some c A axes langReduceSum kd (Expr.constOfType A.type 0) nm ra hn hra]
  · simp [ReduceProd, Expr.defined,
      Reduce_eq_some c A axes langReduceMul kd (Expr.constOfType A.type 1) nm ra hn hra]

/-- C8 witness: shape `[2,3,4]`, axes `{1}`: the sum's fold identity defaults
to `float32 0`, the product's to `float32 1`, and the defined initial value 7
passes through unchanged. -/
theorem reduceSumProd_default_identity_witness :
    (¬ T234.shape.length = 0) ∧
    (getRealAxes (T234.shape.length : Int) [1] = some [1]) ∧
    ((Expr.intImm 7).defined = true) ∧
    (Expr.reduceInit
        (((ReduceSum 0 T234 [1] false Expr.undefined "r").getD defaultTensor).bodyAt
          [Expr.intImm 0, Expr.intImm 1])
      = Expr.constOfType T234.type 0 ∧
    Expr.reduceInit
        (((ReduceProd 0 T234 [1] false Expr.undefined "r").getD defaultTensor).bodyAt
          [Expr.intImm 0, Expr.intImm 1])
      = Expr.constOfType T234.type 1 ∧
    Expr.reduceInit
        (((ReduceSum 0 T234 [1] false (Expr.intImm 7) "r").getD defaultTensor).bodyAt
          [Expr.intImm 0, Expr.intImm 1])
      = Expr.intImm 7 ∧
    Expr.reduceInit
        (((ReduceProd 0 T234 [1] false (Expr.intImm 7) "r").getD defaultTensor).bodyAt
          [Expr.intImm 0, Expr.intImm 1])
      = Expr.intImm 7 ∧
    (ReduceSum 0 T234 [1] false Expr.undefined "r").isSome = true ∧
    (ReduceProd 0 T234 [1] false Expr.undefined "r").isSome = true) :=
  ⟨by decide, by decide, by decide,
    reduceSumProd_default_identity 0 T234 [1] false "r" [Expr.intImm 0, Expr.intImm 1]
      (Expr.intImm 7) [1] (by decide) (by decide) (by decide)⟩

/-- C10: `ReduceMax` and `ReduceMin` ignore the caller-supplied initial value
entirely — any two initial arguments yield the same result — because both
always invoke the facade with the undefined (default-constructed) identity. -/
theorem reduceMaxMin_ignore_initial (c : Nat) (A : Tensor) (axes : List Int)
    (kd : Bool) (nm : String) (idx : List Expr) (i1 i2 : Expr) (ra : List Int)
    (hn : ¬ A.shape.length = 0)
    (hra : getRealAxes (A.shape.length : Int) axes = some ra) :
    ReduceMax c A axes kd i1 nm = ReduceMax c A axes kd i2 nm ∧
    ReduceMin c A axes kd i1 nm = ReduceMin c A axes kd i2 nm ∧
    Expr.reduceInit (((ReduceMax c A axes kd i1 nm).getD defaultTensor).bodyAt idx)
      = Expr.undefined ∧
    Expr.reduceInit (((ReduceMin c A axes kd i1 nm).getD defaultTensor).bodyAt idx)
      = Expr.undefined ∧
    (ReduceMax c A axes kd i1 nm).isSome = true ∧
    (ReduceMin c A axes kd i1 nm).isSome = true := by
  refine ⟨rfl, rfl, ?_, ?_, ?_, ?_⟩
  · simp [ReduceMax,
      Reduce_eq_some c A axes langReduceMax kd Expr.undefined nm ra hn hra,
      DoReduce, Compute, Tensor.bodyAt, langReduceMax, Expr.reduceInit]
  · simp [ReduceMin,
      Reduce_eq_some c A axes langReduceMin kd Expr.undefined nm ra hn hra,
      DoReduce, Compute, Tensor.bodyAt, langReduceMin, Expr.reduceInit]
  · simp [ReduceMax,
      Reduce_eq_some c A axes langReduceMax kd Expr.undefined nm ra hn hra]
  · simp [ReduceMin,
      Reduce_eq_some c A axes langReduceMin kd Expr.undefined nm ra hn hra]

/-- C10 witness: shape `[2,3,4]`, axes `{1}`: a defined initial value 7 and an
undefined one give identical max/min results, whose fold identity is the
undefined expression. -/
theorem reduceMaxMin_ignore_initial_witness :
    (¬ T234.shape.length = 0) ∧
    (getRealAxes (T234.shape.length : Int) [1] = some [1]) ∧
    (ReduceMax 0 T234 [1] false (Expr.intImm 7) "r"
       = ReduceMax 0 T234 [1] false Expr.undefined "r" ∧
     ReduceMin 0 T234 [1] false (Expr.intImm 7) "r"
       = ReduceMin 0 T234 [1] false Expr.undefined "r" ∧
     Expr.reduceInit (((ReduceMax 0 T234 [1] false (Expr.intImm 7) "r").getD
         defaultTensor).bodyAt [Expr.intImm 0, Expr.intImm 1]) = Expr.undefined ∧
     Expr.reduceInit (((ReduceMin 0 T234 [1] false (Expr.intImm 7) "r").getD
         defaultTensor).bodyAt [Expr.intImm 0, Expr.intImm 1]) = Expr.undefined ∧
     (ReduceMax 0 T234 [1] false (Expr.intImm 7) "r").isSome = true ∧
     (ReduceMin 0 T234 [1] false (Expr.intImm 7) "r").isSome = true) :=
  ⟨by decide, by decide,
    reduceMaxMin_ignore_initial 0 T234 [1] false "r" [Expr.intImm 0, Expr.intImm 1]
      (Expr.intImm 7) Expr.undefined [1] (by decide) (by decide)⟩

/-- C9: for every positive rank, the empty raw axis list normalizes to exactly
the full list `0, 1, ..., ndim-1`. -/
theorem getRealAxes_empty_axes (ndim : Int) (h : 0 < ndim) (i : Nat)
    (hi : i < ndim.toNat) :
    (getRealAxes ndim []).isSome = true ∧
    ((getRealAxes ndim []).getD []).length = ndim.toNat ∧
    ((getRealAxes ndim []).getD []).getD i 0 = (i : Int) := by
  have hred : getRealAxes ndim [] =
      some ((List.range ndim.toNat).map (fun m : Nat => (m : Int))) := rfl
  refine ⟨rfl, ?_, ?_⟩
  · rw [hred, Option.getD_some, List.length_map, List.length_range]
  · rw [hred, Option.getD_some, List.getD_eq_getElem?_getD, List.getElem?_map,
      List.getElem?_range hi, Option.map_some', Option.getD_some]

/-- C9 witness: `ndim = 4` yields the four axes `0, 1, 2, 3`; position 2
holds the axis 2. -/
theorem getRealAxes_empty_axes_witness :
    (0 < (4 : Int)) ∧ (2 < (4 : Int).toNat) ∧
    ((getRealAxes 4 []).isSome = true ∧
     ((getRealAxes 4 []).getD []).length = (4 : Int).toNat ∧
     ((getRealAxes 4 []).getD []).getD 2 0 = ((2 : Nat) : Int)) :=
  ⟨by decide, by decide, getRealAxes_empty_axes 4 (by decide) 2 (by decide)⟩

end CinnPE
